import Mathlib

/-!
Verification of the tf-iamgen resource-to-permission mapping and
policy-synthesis pipeline.

The Go source is shallowly embedded: Go maps become association lists
(`List (key × value)`); where Go's arbitrary map-iteration order is
observable, the iteration sequence is an explicit argument and theorems
quantify over its permutations.  Go's `map[string]bool` sets
(`mapping.ActionSet`) become duplicate-free `List String` values with the
set operations of part_004 translated one by one.
-/

namespace TfIamgen

/-! ## ActionSet (src/unnamed/part_004)

Go's `ActionSet` is a `map[string]bool`.  Its observable content is the
set of keys; we carry that as a `List String` kept duplicate-free by the
insert operation, with the list order standing for iteration order. -/

/-- Model of `as[action] = true` (`ActionSet.Add`): inserting into a Go
map; a no-op when the key is already present. -/
def addAction (s : List String) (a : String) : List String :=
  if a ∈ s then s else s ++ [a]

/-- Model of `ActionSet.AddAll`: inserts every key of `t` into `s`. -/
def addAll (s t : List String) : List String :=
  t.foldl addAction s

/-- The `seen`-map idiom used throughout the source (`MergeActions`,
`AnalyzePolicyGaps`, `GeneratePolicyWithResources`): keeps the first
occurrence of each element. -/
def dedupKeepFirst (l : List String) : List String :=
  addAll [] l

/-- Lexicographic order on character lists, the order Go's byte-wise
string comparison induces (identical on the ASCII strings of this
pipeline; defined structurally so the kernel can evaluate it). -/
def charListLE : List Char → List Char → Bool
  | [], _ => true
  | _ :: _, [] => false
  | a :: as, b :: bs => if a = b then charListLE as bs else decide (a < b)

/-- Strict version of `charListLE`, Go's `<` on strings. -/
def charListLT : List Char → List Char → Bool
  | [], [] => false
  | [], _ :: _ => true
  | _ :: _, [] => false
  | a :: as, b :: bs => if a = b then charListLT as bs else decide (a < b)

/-- Go's `s1 <= s2` on strings. -/
def strLE (a b : String) : Bool := charListLE a.data b.data

/-- Go's `s1 < s2` on strings. -/
def strLT (a b : String) : Bool := charListLT a.data b.data

/-- Model of Go's `sort.Strings`: the ascending sorted rearrangement
(unique for a total order, so any correct sort agrees). -/
def sortStrings (l : List String) : List String :=
  List.insertionSort (fun a b => strLE a b = true) l

/-! ## Policy data model (src/unnamed/part_003)

`Effect` is a Go string type with the two constants below.  `Principal`
and `Condition` are declared on the Go struct but are never populated by
any code path of this pipeline (both are nil and marshal as omitted), so
they are not carried here. -/

def PolicyVersionConst : String := "2012-10-17"

def EffectAllow : String := "Allow"

def EffectDeny : String := "Deny"

structure Statement where
  sid : String
  effect : String
  action : List String
  resource : List String
deriving DecidableEq, Repr

structure Policy where
  version : String
  sid : String
  statement : List Statement
deriving DecidableEq, Repr

/-- Model of `NewPolicy`: version constant, empty (non-nil) statements. -/
def NewPolicy : Policy :=
  { version := PolicyVersionConst, sid := "", statement := [] }

/-- Model of `MergeActions` / `MergeResources`: a `seen`-map dedup over
the concatenation of the slices, then `sort.Strings`. -/
def MergeActions (slices : List (List String)) : List String :=
  sortStrings (dedupKeepFirst slices.flatten)

/-- Model of `Policy.AddStatement`: sorts the new statement's action and
resource slices in place, then appends it. -/
def Policy.addStatement (p : Policy) (s : Statement) : Policy :=
  { p with
    statement := p.statement ++
      [{ s with action := sortStrings s.action, resource := sortStrings s.resource }] }

/-- The statement built by `PolicyBuilder.AddActionStatement` before
`AddStatement` re-sorts it: effect is always `Allow`. -/
def buildActionStatement (sid : String) (actions resources : List String) : Statement :=
  { sid := sid, effect := EffectAllow,
    action := MergeActions [actions], resource := MergeActions [resources] }

/-- Model of `PolicyBuilder.AddActionStatement` acting on the policy under
construction. -/
def addActionStatement (p : Policy) (sid : String) (actions resources : List String) : Policy :=
  p.addStatement (buildActionStatement sid actions resources)

/-! ### JSON serialization

`encoding/json` renders struct fields in declaration order.  A nil string
slice renders as `null` and an empty non-nil one as `[]`; in this
pipeline every empty `Action`/`Resource` slice is nil (it comes from
`MergeActions`, which returns a nil slice for empty input), while
`Policy.Statement` starts as the non-nil `[]Statement{}`, so an empty
statement list renders as `[]`.  Go additionally escapes `<`, `>`, `&`
in strings; no string of this pipeline contains those, double quotes,
backslashes or control characters, so escaping is the identity here. -/

def jsonString (s : String) : String := "\"" ++ s ++ "\""

/-- Renders a `[]string` field with no `omitempty`: `null` for the nil
slice, a JSON array otherwise. -/
def jsonStringArrayOrNull (l : List String) : String :=
  if l.isEmpty then "null"
  else "[" ++ String.intercalate "," (l.map jsonString) ++ "]"

/-- Compact rendering of one `Statement` (fields `Sid` omitempty,
`Effect`, `Action`, `Resource`; `Principal`/`Condition` always omitted). -/
def renderStatementCompact (s : Statement) : String :=
  "\x7b" ++ (if s.sid = "" then "" else "\"Sid\":" ++ jsonString s.sid ++ ",")
      ++ "\"Effect\":" ++ jsonString s.effect
      ++ ",\"Action\":" ++ jsonStringArrayOrNull s.action
      ++ ",\"Resource\":" ++ jsonStringArrayOrNull s.resource
      ++ "\x7d"

/-- Compact rendering of a `Policy` (fields `Version`, `Sid` omitempty,
`Statement`), i.e. the output of `json.Marshal`. -/
def renderPolicyCompact (p : Policy) : String :=
  "\x7b" ++ "\"Version\":" ++ jsonString p.version
      ++ (if p.sid = "" then "" else ",\"Sid\":" ++ jsonString p.sid)
      ++ ",\"Statement\":["
      ++ String.intercalate "," (p.statement.map renderStatementCompact)
      ++ "]\x7d"

/-- The comparator of `sortStatements` (`sort.Slice` at part_003:150): by
`Sid`, then by first action when both action lists are non-empty; the
source's `i < j` fallback keeps the original relative order, which a
stable insertion sort with a `true` result reproduces. -/
def stmtLE (s t : Statement) : Bool :=
  if s.sid ≠ t.sid then strLT s.sid t.sid
  else if ¬ s.action.isEmpty ∧ ¬ t.action.isEmpty then
    strLE (s.action.headD "") (t.action.headD "")
  else true

/-- Model of `sortStatements`: in-place sort of the statement slice. -/
def sortStatements (l : List Statement) : List Statement :=
  List.insertionSort (fun s t => stmtLE s t = true) l

/-- Model of `Policy.ToJSON`: it first runs `sortStatements` on the
receiver's statement slice IN PLACE, then marshals with indentation.
The pair returned here is (output string, state of the receiver after
the call). -/
def Policy.toJSONRun (p : Policy) : String × Policy :=
  let q : Policy := { p with statement := sortStatements p.statement }
  (renderPolicyPretty q, q)
where
  renderIndentArray (l : List String) : String :=
    if l.isEmpty then "null"
    else "[\n        " ++ String.intercalate ",\n        " (l.map jsonString) ++ "\n      ]"
  renderStatementPretty (s : Statement) : String :=
    "\x7b\n"
      ++ (if s.sid = "" then "" else "      \"Sid\": " ++ jsonString s.sid ++ ",\n")
      ++ "      \"Effect\": " ++ jsonString s.effect ++ ",\n"
      ++ "      \"Action\": " ++ renderIndentArray s.action ++ ",\n"
      ++ "      \"Resource\": " ++ renderIndentArray s.resource ++ "\n    \x7d"
  renderPolicyPretty (q : Policy) : String :=
    "\x7b\n  \"Version\": " ++ jsonString q.version
      ++ (if q.sid = "" then "" else ",\n  \"Sid\": " ++ jsonString q.sid)
      ++ ",\n  \"Statement\": ["
      ++ (if q.statement.isEmpty then "" else
            "\n    " ++ String.intercalate ",\n    " (q.statement.map renderStatementPretty) ++ "\n  ")
      ++ "]\n\x7d"

/-- Model of `Policy.ToCompactJSON`: `json.Marshal` of the receiver; the
receiver is not touched. -/
def Policy.toCompactJSONRun (p : Policy) : String × Policy :=
  (renderPolicyCompact p, p)

/-! ## Mapping package (src/unnamed/part_004, loader.go, service.go)

`ResourceActionMap.AttributeActions` is declared in Go as
`map[string]map[string]ActionSet`, but the loader only ever stores the
inner map `{"_default": actions}` (loader.go:131) and every reader takes
the union over the inner map, so the inner layer collapses to one action
set per attribute name. -/

structure ResourceActionMap where
  actions : List (String × List String)
  attributeActions : List (String × List String)
  service : String
  description : String
deriving DecidableEq, Repr

/-- The database's `mappings` field, `map[string]*ResourceActionMap`,
flattened to an association list (adequate for the read-only claims;
pointer aliasing gets its own heap model further below). -/
def KnowledgeBase : Type := List (String × ResourceActionMap)

/-- Model of `MappingDatabase.HasMapping`. -/
def HasMapping (kb : KnowledgeBase) (resourceType : String) : Bool :=
  (List.lookup resourceType (kb : List (String × ResourceActionMap))).isSome

/-- Model of `MappingDatabase.GetMapping`. -/
def GetMapping (kb : KnowledgeBase) (resourceType : String) : Option ResourceActionMap :=
  List.lookup resourceType (kb : List (String × ResourceActionMap))

/-- The union of all of a mapping's base permission sets, as accumulated
by the `for _, actionSet := range mapping.Actions` loop of
`GetResourceActions`. -/
def baseActionUnion (m : ResourceActionMap) : List String :=
  m.actions.foldl (fun acc p => addAll acc p.2) []

/-- Attribute values are `interface{}` in Go and are never inspected:
only key presence matters.  We keep them as an opaque `Bool` so theorems
can quantify over the value. -/
def Attributes : Type := List (String × Bool)

/-- Loop body of the attribute pass of `GetResourceActions`: if the
mapping declares triggered permissions for this attribute NAME (the
value component is never consulted), union them in. -/
def attrStep (attributeActions : List (String × List String))
    (acc : List String) (p : String × Bool) : List String :=
  match List.lookup p.1 attributeActions with
  | some s => addAll acc s
  | none => acc

/-- Model of `MappingService.GetResourceActions` (service.go:10), the
cold-cache computation path: `none` is the `no mapping found` error.
`attributes = none` models a nil Go map (the generator always passes
nil).  The cache (keyed by type plus sorted attribute names) stores this
same value, so a warm hit returns an equal set. -/

def GetResourceActions (kb : KnowledgeBase) (resourceType : String)
    (attributes : Option Attributes) : Option (List String) :=
  match GetMapping kb resourceType with
  | none => none
  | some m =>
    let base := baseActionUnion m
    match attributes with
    | none => some base
    | some attrs =>
      if m.attributeActions.length > 0 then
        some (attrs.foldl (attrStep m.attributeActions) base)
      else some base

/-- The part of an action before the first `:` — Go's
`strings.Split(action, ":")[0]`.  `strings.Split` always returns at
least one element, so the guard `len(parts) >= 1` in the source is
always true. -/
def serviceOf (action : String) : String :=
  String.mk (action.data.takeWhile (fun c => c ≠ ':'))

/-- One step of the grouping loops: Go's
`groups[svc] = append(groups[svc], a)` on an association list. -/
def groupAppend : List (String × List String) → String → String → List (String × List String)
  | [], svc, a => [(svc, [a])]
  | (k, g) :: rest, svc, a =>
    if k = svc then (k, g ++ [a]) :: rest else (k, g) :: groupAppend rest svc a

/-- Model of `MappingService.GetActionsByService` (service.go:94): the
argument list is the iteration order of the `allActions` map.  In the
source each group is itself an `ActionSet`; inserting the actions of one
service in order never hits a duplicate, so a plain append list is the
same set. -/
def GetActionsByService (allActions : List String) : List (String × List String) :=
  allActions.foldl (fun acc a => groupAppend acc (serviceOf a) a) []

/-- Model of `MappingService.GetResourcesWithoutMapping` (service.go:113). -/
def GetResourcesWithoutMapping (kb : KnowledgeBase) (resourceTypes : List String) : List String :=
  resourceTypes.filter (fun t => ¬ HasMapping kb t)

/-! ## Parser output consumed by the generator (internal/parser/ast.go) -/

structure Resource where
  type : String
  name : String
deriving DecidableEq, Repr

structure ParseResult where
  resources : List Resource
deriving DecidableEq, Repr

/-! ## Policy generator (internal/policy/generator.go) -/

structure PolicyGenerationOptions where
  useWildcardResources : Bool
  groupBy : String
deriving DecidableEq, Repr

/-- Model of `strings.Title`: uppercases every letter that starts a word
(previous character not a letter). -/
def titleCase (s : String) : String :=
  String.mk (go s.data true)
where
  go : List Char → Bool → List Char
  | [], _ => []
  | c :: cs, atBoundary =>
    (if atBoundary then c.toUpper else c) :: go cs (¬ c.isAlpha)

/-- Model of the call `strings.ReplaceAll(s, "_", "")` at
generator.go:161: with a one-character pattern and empty replacement it
removes every underscore (defined structurally so the kernel can
evaluate it, which `String.replace` cannot). -/
def removeUnderscores (s : String) : String :=
  String.mk (s.data.filter (fun c => c ≠ '_'))

/-- Model of `generateStatementsGroupedByService` (generator.go:78): the
argument is the iteration order of the accumulated `allActions` map.
Groups are formed in iteration order, then services are sorted and each
group's actions sorted; each statement passes through
`AddActionStatement`/`AddStatement`. -/
def generateStatementsGroupedByService (allActionsIter : List String) : List Statement :=
  let serviceGroups := GetActionsByServiceGroups allActionsIter
  let services := sortStrings (serviceGroups.map (·.1))
  (services.foldl (fun p svc =>
    let actions := sortStrings ((List.lookup svc serviceGroups).getD [])
    addActionStatement p (titleCase svc ++ "Permissions") actions ["*"]) NewPolicy).statement
where
  GetActionsByServiceGroups (iter : List String) : List (String × List String) :=
    iter.foldl (fun acc a => groupAppend acc (serviceOf a) a) []

/-- Model of `generateStatementsFlat` (generator.go:108): always adds
exactly one statement, even when the action set is empty.  The argument
is the iteration order of the `allActions` map (`ToSlice` does not sort,
despite its comment; the later `MergeActions`/`AddStatement` sorting
makes the statement content order-independent). -/
def generateStatementsFlat (allActionsIter : List String) : List Statement :=
  (addActionStatement NewPolicy "AllResourcesPermissions" allActionsIter ["*"]).statement

/-- The accumulation loop of `GeneratePolicy`: per resource, resolve with
nil attributes, skip unmapped types, `AddAll` into `allActions`.  The
result list carries one canonical iteration order of that map; theorems
about run-to-run behavior quantify over its permutations. -/
def collectAllActions (kb : KnowledgeBase) (resources : List Resource) : List String :=
  resources.foldl (fun acc r =>
    match GetResourceActions kb r.type none with
    | none => acc
    | some acts => addAll acc acts) []

/-- Statement construction of `GeneratePolicy`, selected by
`options.GroupBy` (only the exact string `service` selects grouping). -/
def GeneratePolicyStmts (opts : PolicyGenerationOptions) (allActionsIter : List String) :
    List Statement :=
  if opts.groupBy = "service" then generateStatementsGroupedByService allActionsIter
  else generateStatementsFlat allActionsIter

/-- Model of `Generator.GeneratePolicy` (generator.go:29): `none` is the
`parse result cannot be nil` error; otherwise the sealed policy.
Metadata is omitted except through `renderPolicyCompact`, which
determines the `Checksum` field (`calculateChecksum` is the MD5 of
`ToCompactJSON`).  The canonical map-iteration order
`collectAllActions` is used; permutation-invariance is proved
separately. -/
def GeneratePolicy (kb : KnowledgeBase) (parseResult : Option ParseResult)
    (opts : PolicyGenerationOptions) : Option Policy :=
  parseResult.map fun pr =>
    { NewPolicy with statement := GeneratePolicyStmts opts (collectAllActions kb pr.resources) }

/-- The `statementsByResource` accumulation of
`GeneratePolicyWithResources`: appends each mapped resource's
`Actions.ToSlice()` (duplicates included across repeated resources). -/
def statementsByResource (kb : KnowledgeBase) (resources : List Resource) :
    List (String × List String) :=
  resources.foldl (fun acc r =>
    match GetResourceActions kb r.type none with
    | none => acc
    | some acts => acts.foldl (fun acc2 a => groupAppend acc2 r.type a) acc) []

/-- Loop body of the statement-emission loop of
`GeneratePolicyWithResources`: dedup and sort this type's accumulated
actions, pick the caller-supplied ARN or the wildcard, derive the Sid
from the resource type. -/
def withResourcesStep (byResource : List (String × List String))
    (resourceARNs : List (String × String)) (p : Policy) (t : String) : Policy :=
  match List.lookup t byResource with
  | none => p
  | some actions =>
    let uniqueActions := sortStrings (dedupKeepFirst actions)
    let arn := (List.lookup t resourceARNs).getD "*"
    let sid := removeUnderscores (titleCase t) ++ "Access"
    addActionStatement p sid uniqueActions [arn]

/-- Model of `Generator.GeneratePolicyWithResources` (generator.go:117).
`typeIter` is the order in which `for resourceType, actions := range
statementsByResource` enumerates the map — Go randomizes it, and the
source never re-sorts the emitted statements, so it is an explicit
argument here; well-formed runs have `typeIter` a permutation of the
map's key list. -/
def GeneratePolicyWithResources (kb : KnowledgeBase) (parseResult : Option ParseResult)
    (resourceARNs : List (String × String)) (typeIter : List String) : Option Policy :=
  parseResult.map fun pr =>
    typeIter.foldl
      (withResourcesStep (statementsByResource kb pr.resources) resourceARNs) NewPolicy

/-- Model of `Generator.AnalyzePolicyGaps` (generator.go:180): despite
its name and doc comment, the body never consults the mapping service —
it returns every distinct resource type, sorted. -/
def AnalyzePolicyGaps (parseResult : Option ParseResult) : Option (List String) :=
  parseResult.map fun pr =>
    sortStrings (dedupKeepFirst (pr.resources.map (·.type)))

/-- The per-statement warnings of `ValidatePolicy`, in the source's
append order for statement index `i`. -/
def statementWarnings (opts : PolicyGenerationOptions) (i : Nat) (s : Statement) : List String :=
  (if s.action.length = 0 then ["Statement " ++ toString i ++ " has no actions"] else [])
  ++ (if s.resource.length = 0 then ["Statement " ++ toString i ++ " has no resources"] else [])
  ++ (if s.action.length = 1 ∧ s.action.headD "" = "*" then
        ["Statement " ++ toString i ++ " has wildcard actions"] else [])
  ++ (if s.resource.length = 1 ∧ s.resource.headD "" = "*" ∧ ¬ opts.useWildcardResources then
        ["Statement " ++ toString i ++ " has wildcard resources"] else [])

/-- Model of `Generator.ValidatePolicy` (generator.go:244): the `Bool`
component is whether an error is returned (`policy cannot be nil`); the
warning list is returned empty (nil) in the error case. -/
def ValidatePolicy (opts : PolicyGenerationOptions) (policy : Option Policy) :
    List String × Bool :=
  match policy with
  | none => ([], true)
  | some p =>
    ((if p.statement.length = 0 then ["Policy contains no statements"] else [])
      ++ (p.statement.enum.map (fun is => statementWarnings opts is.1 is.2)).flatten,
     false)

/-- The result record of `GetPolicyCoverage`.  `coveragePercent` is a Go
`float64`; `none` stands for NaN (the value `0.0/0.0*100` would take),
`some q` for the real number `q`. -/
structure CoverageInfo where
  totalResourceTypes : Nat
  mappedTypes : Nat
  coveragePercent : Option ℚ
  resourcesByType : List (String × Nat)
deriving DecidableEq, Repr

/-- The `resourcesByType` counting loop of `GetPolicyCoverage`. -/
def countByType (resources : List Resource) : List (String × Nat) :=
  resources.foldl (fun acc r => bump acc r.type) []
where
  bump : List (String × Nat) → String → List (String × Nat)
  | [], t => [(t, 1)]
  | (k, n) :: rest, t => if k = t then (k, n + 1) :: rest else (k, n) :: bump rest t

/-- Model of `Generator.GetPolicyCoverage` (generator.go:203): `none` is
the nil-input error.  `mappedCount` is incremented once per distinct
type with no mapping check (`for range resourcesByType`), mirroring the
source — the generator's mapping service is never consulted here.  The
division is performed first (NaN when there are zero distinct types)
and then overwritten with 0 by the explicit guard. -/
def GetPolicyCoverage (parseResult : Option ParseResult) :
    Option CoverageInfo :=
  parseResult.map fun pr =>
    let byType := countByType pr.resources
    let mappedCount := byType.length
    let rawCoverage : Option ℚ :=
      if byType.length = 0 then none
      else some ((mappedCount : ℚ) / (byType.length : ℚ) * 100)
    let coverage : Option ℚ := if byType.length = 0 then some 0 else rawCoverage
    { totalResourceTypes := byType.length
      mappedTypes := mappedCount
      coveragePercent := coverage
      resourcesByType := byType }

/-! ## Pointer aliasing model for `GetAllMappings` (loader.go:180)

The database field is `map[string]*ResourceActionMap`: the values are
pointers.  `GetAllMappings` copies the map — same keys, same pointers.
To make aliasing expressible, addresses are explicit: a heap maps
addresses to `ResourceActionMap` values and the database maps resource
types to addresses. -/

structure MappingHeap where
  cells : List (Nat × ResourceActionMap)
deriving DecidableEq, Repr

/-- Dereferencing a `*ResourceActionMap`. -/
def heapRead (h : MappingHeap) (addr : Nat) : Option ResourceActionMap :=
  List.lookup addr h.cells

/-- A caller-side mutation through a pointer obtained from a returned
entry (for example `entry.Actions["create"].Add(...)`): the pointed-to
value changes in place. -/
def heapWrite (h : MappingHeap) (addr : Nat) (m : ResourceActionMap) : MappingHeap :=
  ⟨h.cells.map (fun c => if c.1 = addr then (addr, m) else c)⟩

/-- The database's internal `mappings` map, with pointer values. -/
structure MappingDatabaseState where
  mappings : List (String × Nat)
deriving DecidableEq, Repr

/-- Model of `MappingDatabase.GetAllMappings`: a fresh map holding the
same keys and the SAME pointers (`result[k] = v` copies the pointer,
not the pointed-to struct). -/
def GetAllMappingsPtr (db : MappingDatabaseState) : List (String × Nat) :=
  db.mappings

/-- Model of `MappingDatabase.GetMapping` in the heap model: look up the
pointer, then dereference. -/
def GetMappingPtr (db : MappingDatabaseState) (h : MappingHeap) (t : String) :
    Option ResourceActionMap :=
  (List.lookup t db.mappings).bind (heapRead h)

/-! ## Concrete fixtures used by counterexamples and witnesses -/

/-- A small mapping entry for `aws_s3_bucket`, shaped like the loaded
knowledge-base data (two base permission sets, one attribute set). -/
def s3Mapping : ResourceActionMap :=
  { actions := [("create", ["s3:CreateBucket"]), ("read", ["s3:GetBucketLocation"])]
    attributeActions := [("logging", ["s3:PutBucketLogging"])]
    service := "s3"
    description := "S3 bucket operations" }

def kbS3 : KnowledgeBase := [("aws_s3_bucket", s3Mapping)]

def defaultOpts : PolicyGenerationOptions := { useWildcardResources := false, groupBy := "" }

/-- Mapping fixtures for two distinct resource types, used to exhibit
the map-iteration-order dependence of `GeneratePolicyWithResources`. -/
def aThingMapping : ResourceActionMap :=
  { actions := [("create", ["svca:Create"])], attributeActions := [],
    service := "svca", description := "" }

def bThingMapping : ResourceActionMap :=
  { actions := [("create", ["svcb:Create"])], attributeActions := [],
    service := "svcb", description := "" }

def kbAB : KnowledgeBase :=
  [("aws_a_thing", aThingMapping), ("aws_b_thing", bThingMapping)]

def prAB : ParseResult :=
  { resources := [{ type := "aws_a_thing", name := "x" },
                  { type := "aws_b_thing", name := "y" }] }

def prS3 : ParseResult :=
  { resources := [{ type := "aws_s3_bucket", name := "b" }] }

/-- The sealed policy `GeneratePolicy` produces for `prS3` over `kbS3`
with default (flat) options. -/
def pS3Flat : Policy :=
  { version := PolicyVersionConst, sid := "",
    statement := [{ sid := "AllResourcesPermissions", effect := "Allow",
                    action := ["s3:CreateBucket", "s3:GetBucketLocation"],
                    resource := ["*"] }] }

/-- The `aws_s3_bucket` mapping after a caller-side mutation through the
pointer returned by `GetAllMappings` (one extra base action). -/
def s3MappingMutated : ResourceActionMap :=
  { s3Mapping with
    actions := s3Mapping.actions ++ [("update", ["s3:PutBucketAcl"])] }

def dbPtrS3 : MappingDatabaseState := { mappings := [("aws_s3_bucket", 0)] }

def heapS3 : MappingHeap := { cells := [(0, s3Mapping)] }

/-! ## Helper lemmas -/

theorem charListLE_total : ∀ as bs : List Char,
    charListLE as bs = true ∨ charListLE bs as = true
  | [], _ => Or.inl rfl
  | _ :: _, [] => Or.inr rfl
  | a :: as, b :: bs => by
    by_cases h : a = b
    · subst h
      simpa [charListLE] using charListLE_total as bs
    · rcases lt_or_gt_of_ne h with hlt | hgt
      · exact Or.inl (by simp [charListLE, h, hlt])
      · exact Or.inr (by simp [charListLE, Ne.symm h, hgt])

theorem charListLE_trans : ∀ {as bs cs : List Char},
    charListLE as bs = true → charListLE bs cs = true → charListLE as cs = true
  | [], _, _, _, _ => rfl
  | _ :: _, [], _, h1, _ => by simp [charListLE] at h1
  | _ :: _, _ :: _, [], _, h2 => by simp [charListLE] at h2
  | a :: as, b :: bs, c :: cs, h1, h2 => by
    by_cases hab : a = b <;> by_cases hbc : b = c
    · subst hab; subst hbc
      simp only [charListLE, if_pos rfl] at h1 h2 ⊢
      exact charListLE_trans h1 h2
    · subst hab
      simpa [charListLE, hbc] using h2
    · subst hbc
      simpa [charListLE, hab] using h1
    · simp only [charListLE, if_neg hab, if_neg hbc, decide_eq_true_eq] at h1 h2
      have hac : a < c := lt_trans h1 h2
      simp [charListLE, ne_of_lt hac, hac]

theorem charListLE_antisymm : ∀ {as bs : List Char},
    charListLE as bs = true → charListLE bs as = true → as = bs
  | [], [], _, _ => rfl
  | [], _ :: _, _, h2 => by simp [charListLE] at h2
  | _ :: _, [], h1, _ => by simp [charListLE] at h1
  | a :: as, b :: bs, h1, h2 => by
    by_cases h : a = b
    · subst h
      simp only [charListLE, if_pos rfl] at h1 h2
      exact congrArg _ (charListLE_antisymm h1 h2)
    · simp only [charListLE, if_neg h, if_neg (Ne.symm h), decide_eq_true_eq] at h1 h2
      exact absurd h2 (not_lt_of_gt h1)

theorem mem_addAction {s : List String} {a b : String} :
    b ∈ addAction s a ↔ b ∈ s ∨ b = a := by
  unfold addAction
  by_cases h : a ∈ s
  · rw [if_pos h]
    constructor
    · exact Or.inl
    · rintro (hb | rfl) <;> assumption
  · rw [if_neg h]
    simp

theorem nodup_addAction {s : List String} (hs : s.Nodup) (a : String) :
    (addAction s a).Nodup := by
  unfold addAction
  by_cases h : a ∈ s
  · rwa [if_pos h]
  · rw [if_neg h]
    exact hs.append (List.nodup_singleton a) (by simp [List.disjoint_singleton, h])

theorem mem_addAll {t s : List String} {b : String} :
    b ∈ addAll s t ↔ b ∈ s ∨ b ∈ t := by
  induction t generalizing s with
  | nil => simp [addAll]
  | cons x xs ih =>
    show b ∈ addAll (addAction s x) xs ↔ _
    rw [ih, mem_addAction]
    simp only [List.mem_cons]
    tauto

theorem nodup_addAll {t s : List String} (hs : s.Nodup) :
    (addAll s t).Nodup := by
  induction t generalizing s with
  | nil => exact hs
  | cons x xs ih => exact ih (nodup_addAction hs x)

theorem mem_dedupKeepFirst {l : List String} {b : String} :
    b ∈ dedupKeepFirst l ↔ b ∈ l := by
  unfold dedupKeepFirst; rw [mem_addAll]; simp

theorem nodup_dedupKeepFirst (l : List String) : (dedupKeepFirst l).Nodup :=
  nodup_addAll List.nodup_nil

theorem strLE_isTotal : IsTotal String (fun a b : String => strLE a b = true) :=
  ⟨fun a b => charListLE_total a.data b.data⟩

theorem strLE_isTrans : IsTrans String (fun a b : String => strLE a b = true) :=
  ⟨fun _ _ _ => charListLE_trans⟩

theorem strLE_isAntisymm : IsAntisymm String (fun a b : String => strLE a b = true) :=
  ⟨fun a b h1 h2 => by
    cases a; cases b
    exact congrArg String.mk (charListLE_antisymm h1 h2)⟩

theorem sortStrings_sorted (l : List String) :
    (sortStrings l).Sorted (fun a b => strLE a b = true) :=
  @List.sorted_insertionSort String (fun a b => strLE a b = true) _ strLE_isTotal strLE_isTrans l

theorem sortStrings_perm (l : List String) : (sortStrings l).Perm l :=
  List.perm_insertionSort _ l

theorem sortStrings_eq_of_perm {l₁ l₂ : List String} (h : l₁.Perm l₂) :
    sortStrings l₁ = sortStrings l₂ :=
  @List.eq_of_perm_of_sorted String (fun a b => strLE a b = true) strLE_isAntisymm _ _
    ((sortStrings_perm l₁).trans (h.trans (sortStrings_perm l₂).symm))
    (sortStrings_sorted l₁) (sortStrings_sorted l₂)

theorem perm_of_nodup_of_mem_iff {l₁ l₂ : List String}
    (h₁ : l₁.Nodup) (h₂ : l₂.Nodup) (h : ∀ a, a ∈ l₁ ↔ a ∈ l₂) : l₁.Perm l₂ :=
  List.perm_of_nodup_nodup_toFinset_eq h₁ h₂ (by
    ext a; simp [List.mem_toFinset, h a])

/-- Two inputs with the same member set dedup-then-sort to the same list. -/
theorem sortStrings_dedupKeepFirst_eq_of_mem_iff {l₁ l₂ : List String}
    (h : ∀ a, a ∈ l₁ ↔ a ∈ l₂) :
    sortStrings (dedupKeepFirst l₁) = sortStrings (dedupKeepFirst l₂) :=
  sortStrings_eq_of_perm
    (perm_of_nodup_of_mem_iff (nodup_dedupKeepFirst l₁) (nodup_dedupKeepFirst l₂)
      (fun a => by rw [mem_dedupKeepFirst, mem_dedupKeepFirst]; exact h a))

theorem groupAppend_keys (acc : List (String × List String)) (svc a : String) :
    (groupAppend acc svc a).map (fun p => p.1) = addAction (acc.map (fun p => p.1)) svc := by
  induction acc with
  | nil => simp [groupAppend, addAction]
  | cons hd tl ih =>
    obtain ⟨k, g⟩ := hd
    by_cases h : k = svc
    · subst h
      simp [groupAppend, addAction]
    · simp only [groupAppend, if_neg h, List.map_cons, ih]
      unfold addAction
      by_cases hm : svc ∈ tl.map (fun p => p.1)
      · simp [hm, Ne.symm h]
      · simp [hm, Ne.symm h, List.mem_cons]

theorem foldGroups_keys (l : List String) :
    ∀ acc, ((l.foldl (fun acc a => groupAppend acc (serviceOf a) a) acc).map (fun p => p.1)) =
      addAll (acc.map (fun p => p.1)) (l.map serviceOf) := by
  induction l with
  | nil => intro acc; simp [addAll]
  | cons x xs ih =>
    intro acc
    simp only [List.foldl_cons, List.map_cons]
    rw [ih, groupAppend_keys]
    rfl

theorem getActionsByService_keys (l : List String) :
    (GetActionsByService l).map (fun p => p.1) = dedupKeepFirst (l.map serviceOf) := by
  simpa [GetActionsByService, dedupKeepFirst, addAll] using foldGroups_keys l []

theorem lookup_groupAppend_self (acc : List (String × List String)) (svc a : String) :
    List.lookup svc (groupAppend acc svc a) = some ((List.lookup svc acc).getD [] ++ [a]) := by
  induction acc with
  | nil => simp [groupAppend, List.lookup]
  | cons hd tl ih =>
    obtain ⟨k, g⟩ := hd
    by_cases h : k = svc
    · subst h
      simp [groupAppend, List.lookup]
    · simp [groupAppend, if_neg h, List.lookup, beq_false_of_ne (Ne.symm h), ih]

theorem lookup_groupAppend_ne (acc : List (String × List String)) (svc a k : String)
    (h : k ≠ svc) :
    List.lookup k (groupAppend acc svc a) = List.lookup k acc := by
  induction acc with
  | nil => simp [groupAppend, List.lookup, beq_false_of_ne h]
  | cons hd tl ih =>
    obtain ⟨k2, g⟩ := hd
    by_cases h2 : k2 = svc
    · subst h2
      simp [groupAppend, List.lookup, beq_false_of_ne h]
    · by_cases h3 : k = k2
      · subst h3
        simp [groupAppend, if_neg h2, List.lookup]
      · simp [groupAppend, if_neg h2, List.lookup, beq_false_of_ne h3, ih]

theorem lookup_foldGroups_some (l : List String) :
    ∀ acc svc g, List.lookup svc acc = some g →
      List.lookup svc (l.foldl (fun acc a => groupAppend acc (serviceOf a) a) acc) =
        some (g ++ l.filter (fun a => serviceOf a == svc)) := by
  induction l with
  | nil => intro acc svc g h; simpa using h
  | cons x xs ih =>
    intro acc svc g h
    simp only [List.foldl_cons]
    by_cases hx : serviceOf x = svc
    · have h2 : List.lookup svc (groupAppend acc (serviceOf x) x) = some (g ++ [x]) := by
        rw [hx, lookup_groupAppend_self, h]
        rfl
      rw [ih _ _ _ h2]
      simp [List.filter_cons, hx]
    · have h2 : List.lookup svc (groupAppend acc (serviceOf x) x) = some g := by
        rw [lookup_groupAppend_ne _ _ _ _ (fun hh => hx hh.symm)]
        exact h
      rw [ih _ _ _ h2]
      simp [List.filter_cons, hx]

theorem lookup_foldGroups_none (l : List String) :
    ∀ acc svc, List.lookup svc acc = none →
      List.lookup svc (l.foldl (fun acc a => groupAppend acc (serviceOf a) a) acc) =
        (if (l.filter (fun a => serviceOf a == svc)).isEmpty then none
         else some (l.filter (fun a => serviceOf a == svc))) := by
  induction l with
  | nil => intro acc svc h; simpa using h
  | cons x xs ih =>
    intro acc svc h
    simp only [List.foldl_cons]
    by_cases hx : serviceOf x = svc
    · have h2 : List.lookup svc (groupAppend acc (serviceOf x) x) = some [x] := by
        rw [hx, lookup_groupAppend_self, h]
        rfl
      rw [lookup_foldGroups_some xs _ _ _ h2]
      simp [List.filter_cons, hx]
    · have h2 : List.lookup svc (groupAppend acc (serviceOf x) x) = none := by
        rw [lookup_groupAppend_ne _ _ _ _ (fun hh => hx hh.symm)]
        exact h
      rw [ih _ _ h2]
      simp [List.filter_cons, hx]

theorem lookup_getActionsByService (l : List String) (svc : String) :
    List.lookup svc (GetActionsByService l) =
      (if (l.filter (fun a => serviceOf a == svc)).isEmpty then none
       else some (l.filter (fun a => serviceOf a == svc))) :=
  lookup_foldGroups_none l [] svc rfl

theorem takeWhile_ne_colon {cs : List Char} (h : ':' ∉ cs) :
    cs.takeWhile (fun c => decide (c ≠ ':')) = cs := by
  rw [List.takeWhile_eq_self_iff]
  intro x hx
  simp only [ne_eq, decide_not, Bool.not_eq_true', decide_eq_false_iff_not]
  exact fun heq => h (heq ▸ hx)

/-- Characterization of `generateStatementsGroupedByService` as a fold
over the sorted distinct service names, looking each group up in
`GetActionsByService`. -/
theorem generateStatementsGroupedByService_eq (l : List String) :
    generateStatementsGroupedByService l =
      ((sortStrings (dedupKeepFirst (l.map serviceOf))).foldl
        (fun p svc => addActionStatement p (titleCase svc ++ "Permissions")
          (sortStrings ((List.lookup svc (GetActionsByService l)).getD [])) ["*"])
        NewPolicy).statement := by
  show ((sortStrings ((GetActionsByService l).map (fun p => p.1))).foldl
      (fun p svc => addActionStatement p (titleCase svc ++ "Permissions")
        (sortStrings ((List.lookup svc (GetActionsByService l)).getD [])) ["*"])
      NewPolicy).statement = _
  rw [getActionsByService_keys]

theorem mem_sortStrings {l : List String} {a : String} :
    a ∈ sortStrings l ↔ a ∈ l :=
  (sortStrings_perm l).mem_iff

theorem lookup_getActionsByService_of_mem {l : List String} {svc : String}
    (h : svc ∈ l.map serviceOf) :
    List.lookup svc (GetActionsByService l) =
      some (l.filter (fun a => serviceOf a == svc)) := by
  rw [lookup_getActionsByService]
  obtain ⟨b, hb, rfl⟩ := List.mem_map.mp h
  have hmem : b ∈ l.filter (fun a => serviceOf a == serviceOf b) :=
    List.mem_filter.mpr ⟨hb, by simp⟩
  rw [if_neg]
  intro hempty
  rw [List.isEmpty_iff] at hempty
  rw [hempty] at hmem
  exact List.not_mem_nil b hmem

theorem generateStatementsGroupedByService_perm {l₁ l₂ : List String} (h : l₁.Perm l₂) :
    generateStatementsGroupedByService l₁ = generateStatementsGroupedByService l₂ := by
  rw [generateStatementsGroupedByService_eq, generateStatementsGroupedByService_eq]
  have hS : sortStrings (dedupKeepFirst (l₂.map serviceOf)) =
      sortStrings (dedupKeepFirst (l₁.map serviceOf)) :=
    sortStrings_dedupKeepFirst_eq_of_mem_iff (fun a => (h.map serviceOf).mem_iff.symm)
  rw [hS]
  congr 1
  apply List.foldl_ext
  intro p svc hsvc
  have hsvc1 : svc ∈ l₁.map serviceOf :=
    mem_dedupKeepFirst.mp (mem_sortStrings.mp hsvc)
  have hsvc2 : svc ∈ l₂.map serviceOf := (h.map serviceOf).mem_iff.mp hsvc1
  rw [lookup_getActionsByService_of_mem hsvc1, lookup_getActionsByService_of_mem hsvc2]
  simp only [Option.getD_some]
  rw [sortStrings_eq_of_perm (h.filter (fun a => serviceOf a == svc))]

theorem mergeActions_single_perm {l₁ l₂ : List String} (h : l₁.Perm l₂) :
    MergeActions [l₁] = MergeActions [l₂] := by
  unfold MergeActions
  simp only [List.flatten, List.append_nil]
  exact sortStrings_dedupKeepFirst_eq_of_mem_iff (fun a => h.mem_iff)

theorem generateStatementsFlat_perm {l₁ l₂ : List String} (h : l₁.Perm l₂) :
    generateStatementsFlat l₁ = generateStatementsFlat l₂ := by
  unfold generateStatementsFlat addActionStatement buildActionStatement Policy.addStatement
  rw [mergeActions_single_perm h]

/-- Every statement a policy accumulates through `AddActionStatement`
carries effect `Allow`. -/
theorem effect_addActionStatement {p : Policy} {sid : String} {a r : List String}
    {s : Statement} (hs : s ∈ (addActionStatement p sid a r).statement) :
    s ∈ p.statement ∨ s.effect = EffectAllow := by
  unfold addActionStatement Policy.addStatement buildActionStatement at hs
  rcases List.mem_append.mp hs with h | h
  · exact Or.inl h
  · right
    rw [List.mem_singleton.mp h]

theorem effect_foldl {α : Type} (step : Policy → α → Policy)
    (hstep : ∀ p x s, s ∈ (step p x).statement → s ∈ p.statement ∨ s.effect = EffectAllow) :
    ∀ (l : List α) (p : Policy) (s : Statement),
      s ∈ (l.foldl step p).statement → s ∈ p.statement ∨ s.effect = EffectAllow
  | [], _, _, h => Or.inl h
  | x :: l, p, s, h => by
    rcases effect_foldl step hstep l (step p x) s h with h2 | h2
    · exact hstep p x s h2
    · exact Or.inr h2

theorem effect_generateStatementsGroupedByService {l : List String} {s : Statement}
    (hs : s ∈ generateStatementsGroupedByService l) : s.effect = EffectAllow := by
  rw [generateStatementsGroupedByService_eq] at hs
  rcases effect_foldl _ (fun p x s2 hmem => effect_addActionStatement hmem) _ _ _ hs with h | h
  · exact absurd h (List.not_mem_nil s)
  · exact h

theorem effect_generateStatementsFlat {l : List String} {s : Statement}
    (hs : s ∈ generateStatementsFlat l) : s.effect = EffectAllow := by
  unfold generateStatementsFlat at hs
  rcases effect_addActionStatement hs with h | h
  · exact absurd h (List.not_mem_nil s)
  · exact h

/-- The attribute-triggered fold of `GetResourceActions`, specialized to
a single declared attribute: once the triggered action is present, the
rest of the fold is a no-op. -/
theorem singletonAttrFold_stable (attr x : String) :
    ∀ (attrs : Attributes) (acc : List String), x ∈ acc →
      attrs.foldl (attrStep [(attr, [x])]) acc = acc
  | [], _, _ => rfl
  | p :: rest, acc, hx => by
    by_cases hp : p.1 = attr
    · have hl : attrStep [(attr, [x])] acc p = addAll acc [x] := by
        simp [attrStep, List.lookup, hp]
      have ha : addAll acc [x] = acc := by
        simp [addAll, addAction, hx]
      simp only [List.foldl_cons, hl, ha]
      exact singletonAttrFold_stable attr x rest acc hx
    · have hl : attrStep [(attr, [x])] acc p = acc := by
        simp [attrStep, List.lookup, beq_false_of_ne hp]
      simp only [List.foldl_cons, hl]
      exact singletonAttrFold_stable attr x rest acc hx

/-- With the declared attribute present among the supplied attribute
names (whatever its value), the fold adds the triggered action exactly
once. -/
theorem singletonAttrFold_adds (attr x : String) :
    ∀ (attrs : Attributes) (acc : List String), x ∉ acc → attr ∈ attrs.map (fun p => p.1) →
      attrs.foldl (attrStep [(attr, [x])]) acc = acc ++ [x]
  | [], _, _, hin => absurd hin (List.not_mem_nil attr)
  | p :: rest, acc, hx, hin => by
    by_cases hp : p.1 = attr
    · have hl : attrStep [(attr, [x])] acc p = addAll acc [x] := by
        simp [attrStep, List.lookup, hp]
      have h2 : addAll acc [x] = acc ++ [x] := by
        simp [addAll, addAction, hx]
      simp only [List.foldl_cons, hl, h2]
      exact singletonAttrFold_stable attr x rest (acc ++ [x]) (by simp)
    · have hl : attrStep [(attr, [x])] acc p = acc := by
        simp [attrStep, List.lookup, beq_false_of_ne hp]
      have hin2 : attr ∈ rest.map (fun p => p.1) := by
        rcases List.mem_cons.mp hin with h | h
        · exact absurd h.symm hp
        · exact h
      simp only [List.foldl_cons, hl]
      exact singletonAttrFold_adds attr x rest acc hx hin2

theorem lookup_map_write :
    ∀ (cells : List (Nat × ResourceActionMap)) (addr : Nat) (m : ResourceActionMap),
      addr ∈ cells.map (fun c => c.1) →
      List.lookup addr (cells.map (fun c => if c.1 = addr then (addr, m) else c)) = some m
  | [], addr, _, hin => absurd hin (List.not_mem_nil addr)
  | (a2, m2) :: tl, addr, m, hin => by
    by_cases h2 : a2 = addr
    · subst h2
      show List.lookup a2
        ((if a2 = a2 then (a2, m) else (a2, m2)) :: tl.map (fun c => if c.1 = a2 then (a2, m) else c)) = some m
      rw [if_pos rfl]
      simp [List.lookup]
    · rcases List.mem_cons.mp hin with h3 | h3
      · exact absurd h3.symm h2
      · show List.lookup addr
          ((if a2 = addr then (addr, m) else (a2, m2)) :: tl.map (fun c => if c.1 = addr then (addr, m) else c)) = some m
        rw [if_neg h2]
        have hb : (addr == a2) = false := beq_false_of_ne (fun hh => h2 hh.symm)
        simp only [List.lookup, hb]
        exact lookup_map_write tl addr m h3

theorem heapRead_heapWrite_self {h : MappingHeap} {addr : Nat} {m : ResourceActionMap}
    (hin : addr ∈ h.cells.map (fun c => c.1)) :
    heapRead (heapWrite h addr m) addr = some m :=
  lookup_map_write h.cells addr m hin

/-! ## Claim theorems -/

/-- C9: `GetPolicyCoverage` on an empty resource list succeeds (no
error), with `coveragePercent` exactly `0` — the `some 0` value, never
the NaN value `none` of the raw division. -/
theorem getPolicyCoverage_empty :
    GetPolicyCoverage (some { resources := [] }) =
      some { totalResourceTypes := 0, mappedTypes := 0,
             coveragePercent := some 0, resourcesByType := [] } := by
  decide

/-- C8: `ValidatePolicy` errors exactly on a nil policy and returns no
warnings in that case; every non-nil policy gets a nil error with
warnings as data, and a zero-statement policy gets the policy-level
warning. -/
theorem validatePolicy_nil_iff_error (opts : PolicyGenerationOptions) :
    ValidatePolicy opts none = ([], true) ∧
    (∀ p : Policy, (ValidatePolicy opts (some p)).2 = false) ∧
    (∀ p : Policy, p.statement = [] →
      (ValidatePolicy opts (some p)).1 = ["Policy contains no statements"]) := by
  refine ⟨rfl, fun p => rfl, fun p hp => ?_⟩
  simp [ValidatePolicy, hp]

theorem validatePolicy_nil_iff_error_witness :
    (NewPolicy.statement = [] ∧
      ValidatePolicy defaultOpts (some NewPolicy) = (["Policy contains no statements"], false)) ∧
    ValidatePolicy defaultOpts none = ([], true) := by
  refine ⟨⟨rfl, ?_⟩, (validatePolicy_nil_iff_error defaultOpts).1⟩
  have h := (validatePolicy_nil_iff_error defaultOpts).2.2 NewPolicy rfl
  have h2 := (validatePolicy_nil_iff_error defaultOpts).2.1 NewPolicy
  exact Prod.ext h h2

/-- C4 counterexample: the claim says `ToJSON` leaves the policy
unchanged, including the order of its statements; but `ToJSON` runs
`sortStatements` on the receiver's slice in place, so a policy whose
statements are not already in comparator order is mutated. -/
theorem toJSON_mutates_statement_order :
    (Policy.toJSONRun
      { version := PolicyVersionConst, sid := "",
        statement := [{ sid := "B", effect := "Allow", action := ["b:X"], resource := ["*"] },
                      { sid := "A", effect := "Allow", action := ["a:Y"], resource := ["*"] }] }).2 ≠
      { version := PolicyVersionConst, sid := "",
        statement := [{ sid := "B", effect := "Allow", action := ["b:X"], resource := ["*"] },
                      { sid := "A", effect := "Allow", action := ["a:Y"], resource := ["*"] }] } := by
  decide

/-- C4 amended: `ToCompactJSON` is a pure function of the sealed policy —
its string depends only on the policy's contents and the receiver is
untouched — while `ToJSON` sorts the receiver's statement slice in
place: the state after the call is the sorted permutation of the
original statements, not necessarily the original order. -/
theorem serializers_receiver_effects (p : Policy) :
    (Policy.toCompactJSONRun p).2 = p ∧
    (Policy.toCompactJSONRun p).1 = renderPolicyCompact p ∧
    (Policy.toJSONRun p).2.statement.Perm p.statement ∧
    (Policy.toJSONRun p).2 = { p with statement := sortStatements p.statement } :=
  ⟨rfl, rfl, List.perm_insertionSort _ _, rfl⟩

/-- C1 (code bug): `AnalyzePolicyGaps` never consults the knowledge
base, so on a list with one mapped type and one unknown type it returns
BOTH types, not just the unknown one — contradicting its own doc comment
(`identifies resources that don't have mappings`) and the spec; the
check it should perform exists in `GetResourcesWithoutMapping`, which
returns exactly the unknown type. -/
theorem analyzePolicyGaps_ignores_mapping_db :
    HasMapping kbS3 "aws_s3_bucket" = true ∧
    HasMapping kbS3 "aws_unknown_widget" = false ∧
    AnalyzePolicyGaps (some { resources :=
        [{ type := "aws_s3_bucket", name := "b" },
         { type := "aws_unknown_widget", name := "w" }] }) =
      some ["aws_s3_bucket", "aws_unknown_widget"] ∧
    GetResourcesWithoutMapping kbS3 ["aws_s3_bucket", "aws_unknown_widget"] =
      ["aws_unknown_widget"] := by
  decide

/-- C2 counterexample: the claim says an explicit empty resource list
yields a policy with zero statements for every options value; but in
flat mode (any `groupBy` other than `service`) `generateStatementsFlat`
unconditionally adds one statement, so the policy has one statement
(with an empty action list). -/
theorem generatePolicy_empty_flat_one_statement :
    GeneratePolicy kbS3 (some { resources := [] }) defaultOpts =
      some { version := PolicyVersionConst, sid := "",
             statement := [{ sid := "AllResourcesPermissions", effect := "Allow",
                             action := [], resource := ["*"] }] } := by
  decide

/-- C2 amended: `GeneratePolicy` errors exactly when the parse result is
nil; an explicit empty resource list succeeds for every options value,
and the resulting policy has zero statements when `groupBy = "service"`
and otherwise exactly one `AllResourcesPermissions` statement with zero
actions and resource `["*"]`. -/
theorem generatePolicy_nil_error_empty_list (kb : KnowledgeBase)
    (opts : PolicyGenerationOptions) :
    GeneratePolicy kb none opts = none ∧
    (∀ pr : ParseResult, (GeneratePolicy kb (some pr) opts).isSome = true) ∧
    GeneratePolicy kb (some { resources := [] }) opts =
      some { version := PolicyVersionConst, sid := "",
             statement :=
               if opts.groupBy = "service" then []
               else [{ sid := "AllResourcesPermissions", effect := "Allow",
                       action := [], resource := ["*"] }] } := by
  refine ⟨rfl, fun pr => rfl, ?_⟩
  by_cases h : opts.groupBy = "service"
  · simp only [GeneratePolicy, Option.map_some, collectAllActions, List.foldl_nil,
      GeneratePolicyStmts, if_pos h]
    rfl
  · simp only [GeneratePolicy, Option.map_some, collectAllActions, List.foldl_nil,
      GeneratePolicyStmts, if_neg h]
    rfl

/-- C3 counterexample: the claim says statement order in the ARN-scoped
variant is a function of the input (sorted by resource type); but
`GeneratePolicyWithResources` emits statements in the order Go's map
iteration enumerates `statementsByResource` and never re-sorts them, so
the two legal iteration orders of this two-type input yield different
`ToCompactJSON` strings (hence different checksums). -/
theorem generatePolicyWithResources_order_dependent :
    (["aws_a_thing", "aws_b_thing"].Perm
        ((statementsByResource kbAB prAB.resources).map (fun p => p.1))) ∧
    (["aws_b_thing", "aws_a_thing"].Perm
        ((statementsByResource kbAB prAB.resources).map (fun p => p.1))) ∧
    (GeneratePolicyWithResources kbAB (some prAB) [] ["aws_a_thing", "aws_b_thing"]).map
        renderPolicyCompact ≠
      (GeneratePolicyWithResources kbAB (some prAB) [] ["aws_b_thing", "aws_a_thing"]).map
        renderPolicyCompact := by
  decide

/-- C3 amended: `GeneratePolicy` is deterministic — for any two
iteration orders of the accumulated action set (any permutations of each
other), both statement-construction modes produce identical statement
lists, hence byte-identical `ToCompactJSON` strings and equal checksums;
but `GeneratePolicyWithResources` is NOT order-independent (see the
counterexample): its statements follow the map-iteration order. -/
theorem generatePolicyStmts_perm_invariant (opts : PolicyGenerationOptions)
    {l₁ l₂ : List String} (h : l₁.Perm l₂) :
    GeneratePolicyStmts opts l₁ = GeneratePolicyStmts opts l₂ ∧
    renderPolicyCompact { NewPolicy with statement := GeneratePolicyStmts opts l₁ } =
      renderPolicyCompact { NewPolicy with statement := GeneratePolicyStmts opts l₂ } := by
  have hstmts : GeneratePolicyStmts opts l₁ = GeneratePolicyStmts opts l₂ := by
    unfold GeneratePolicyStmts
    by_cases hg : opts.groupBy = "service"
    · rw [if_pos hg, if_pos hg]
      exact generateStatementsGroupedByService_perm h
    · rw [if_neg hg, if_neg hg]
      exact generateStatementsFlat_perm h
  exact ⟨hstmts, by rw [hstmts]⟩

theorem generatePolicyStmts_perm_invariant_witness :
    (["b:X", "a:Y"].Perm ["a:Y", "b:X"]) ∧
    GeneratePolicyStmts defaultOpts ["b:X", "a:Y"] =
      GeneratePolicyStmts defaultOpts ["a:Y", "b:X"] :=
  ⟨by decide, (generatePolicyStmts_perm_invariant defaultOpts (by decide)).1⟩

/-- C6 counterexample: the claim says a permission identifier with no
separator is absent from every group; but `strings.Split` always
returns at least one part, so the whole identifier becomes the service
name and the malformed permission IS present, in the group keyed by
itself. -/
theorem getActionsByService_keeps_malformed :
    (¬ ':' ∈ "malformed".data) ∧
    GetActionsByService ["malformed"] = [("malformed", ["malformed"])] ∧
    "malformed" ∈ (List.lookup "malformed" (GetActionsByService ["malformed"])).getD [] := by
  decide

/-- C6 amended: `GetActionsByService` splits by the prefix before the
first `:`; a malformed identifier with no separator is not dropped and
does not crash — its service is the whole identifier, so it lands in
the group keyed by itself.  Every input permission appears in the group
of its service. -/
theorem getActionsByService_groups_by_separator (l : List String) (a : String)
    (ha : a ∈ l) :
    a ∈ (List.lookup (serviceOf a) (GetActionsByService l)).getD [] ∧
    (¬ ':' ∈ a.data → serviceOf a = a) := by
  constructor
  · rw [lookup_getActionsByService_of_mem (List.mem_map_of_mem serviceOf ha)]
    exact List.mem_filter.mpr ⟨ha, by simp⟩
  · intro hcolon
    show String.mk (a.data.takeWhile _) = a
    rw [takeWhile_ne_colon hcolon]

theorem getActionsByService_groups_by_separator_witness :
    ("s3:GetObject" ∈ ["s3:GetObject"]) ∧
    ("s3:GetObject" ∈
      (List.lookup (serviceOf "s3:GetObject") (GetActionsByService ["s3:GetObject"])).getD [] ∧
    (¬ ':' ∈ "s3:GetObject".data → serviceOf "s3:GetObject" = "s3:GetObject")) :=
  ⟨by decide, getActionsByService_groups_by_separator ["s3:GetObject"] "s3:GetObject" (by decide)⟩

/-- C7: attribute-triggered permissions depend only on the presence of
the attribute name.  For a mapped type whose base sets union to a
2-element set and which declares one triggered permission for
`logging` (not already in the base), resolving with any attributes map
whose keys include `logging` — whatever the value — yields 3
permissions, and resolving with an empty (non-nil) attributes map
yields the 2 base permissions. -/
theorem getResourceActions_attribute_presence
    (kb : KnowledgeBase) (t : String) (m : ResourceActionMap) (x : String)
    (attrs : Attributes)
    (hm : GetMapping kb t = some m)
    (hattr : m.attributeActions = [("logging", [x])])
    (hbase : (baseActionUnion m).length = 2)
    (hx : x ∉ baseActionUnion m)
    (hin : "logging" ∈ attrs.map (fun p => p.1)) :
    GetResourceActions kb t (some attrs) = some (baseActionUnion m ++ [x]) ∧
    (baseActionUnion m ++ [x]).length = 3 ∧
    GetResourceActions kb t (some []) = some (baseActionUnion m) ∧
    (baseActionUnion m).length = 2 := by
  have hlen : m.attributeActions.length > 0 := by rw [hattr]; simp
  have hred : ∀ as : Attributes, GetResourceActions kb t (some as) =
      if m.attributeActions.length > 0 then
        some (as.foldl (attrStep m.attributeActions) (baseActionUnion m))
      else some (baseActionUnion m) := by
    intro as
    unfold GetResourceActions
    rw [hm]
  refine ⟨?_, by simp [hbase], ?_, hbase⟩
  · rw [hred attrs, if_pos hlen, hattr]
    exact congrArg some (singletonAttrFold_adds "logging" x attrs (baseActionUnion m) hx hin)
  · rw [hred [], if_pos hlen]
    rfl

theorem getResourceActions_attribute_presence_witness :
    (GetMapping kbS3 "aws_s3_bucket" = some s3Mapping ∧
     s3Mapping.attributeActions = [("logging", ["s3:PutBucketLogging"])] ∧
     (baseActionUnion s3Mapping).length = 2 ∧
     "s3:PutBucketLogging" ∉ baseActionUnion s3Mapping ∧
     "logging" ∈ ([("logging", false)] : Attributes).map (fun p => p.1)) ∧
    (GetResourceActions kbS3 "aws_s3_bucket" (some [("logging", false)]) =
        some (baseActionUnion s3Mapping ++ ["s3:PutBucketLogging"]) ∧
      (baseActionUnion s3Mapping ++ ["s3:PutBucketLogging"]).length = 3 ∧
      GetResourceActions kbS3 "aws_s3_bucket" (some []) = some (baseActionUnion s3Mapping) ∧
      (baseActionUnion s3Mapping).length = 2) :=
  ⟨⟨by decide, by decide, by decide, by decide, by decide⟩,
    getResourceActions_attribute_presence kbS3 "aws_s3_bucket" s3Mapping
      "s3:PutBucketLogging" [("logging", false)]
      (by decide) (by decide) (by decide) (by decide) (by decide)⟩

/-- C5 counterexample: the claim says no caller mutation of the value
returned by `GetAllMappings` can ever change the knowledge base's
internal state as seen by later `Get` calls; but the copy is shallow —
the returned map holds the same `*ResourceActionMap` pointers — so a
write through a returned entry (here: adding a permission set to the
`aws_s3_bucket` entry at address 0) changes what `GetMapping`
subsequently returns. -/
theorem getAllMappings_shallow_copy_aliasing :
    (0 ∈ (GetAllMappingsPtr dbPtrS3).map (fun p => p.2)) ∧
    GetMappingPtr dbPtrS3 heapS3 "aws_s3_bucket" = some s3Mapping ∧
    GetMappingPtr dbPtrS3 (heapWrite heapS3 0 s3MappingMutated) "aws_s3_bucket" =
      some s3MappingMutated ∧
    s3MappingMutated ≠ s3Mapping := by
  decide

/-- C5 amended: `GetAllMappings` returns a fresh map with the same keys
but sharing every `ResourceActionMap` entry by pointer: map-level
mutation of the returned value never touches the database (the copy is
a distinct map), but mutating a returned entry's contents through its
pointer is observed by every subsequent `Get` of that resource type. -/
theorem getAllMappings_copy_semantics (db : MappingDatabaseState) (h : MappingHeap)
    (t : String) (addr : Nat) (m mNew : ResourceActionMap) :
    GetAllMappingsPtr db = db.mappings ∧
    (List.lookup t db.mappings = some addr → heapRead h addr = some m →
      GetMappingPtr db h t = some m) ∧
    (List.lookup t db.mappings = some addr → addr ∈ h.cells.map (fun c => c.1) →
      GetMappingPtr db (heapWrite h addr mNew) t = some mNew) := by
  refine ⟨rfl, ?_, ?_⟩
  · intro h1 h2
    unfold GetMappingPtr
    rw [h1]
    exact h2
  · intro h1 h2
    unfold GetMappingPtr
    rw [h1]
    exact heapRead_heapWrite_self h2

theorem getAllMappings_copy_semantics_witness :
    (List.lookup "aws_s3_bucket" dbPtrS3.mappings = some 0 ∧
     heapRead heapS3 0 = some s3Mapping ∧
     0 ∈ heapS3.cells.map (fun c => c.1)) ∧
    (GetMappingPtr dbPtrS3 heapS3 "aws_s3_bucket" = some s3Mapping ∧
     GetMappingPtr dbPtrS3 (heapWrite heapS3 0 s3MappingMutated) "aws_s3_bucket" =
       some s3MappingMutated) :=
  ⟨⟨by decide, by decide, by decide⟩,
    ⟨(getAllMappings_copy_semantics dbPtrS3 heapS3 "aws_s3_bucket" 0 s3Mapping
        s3MappingMutated).2.1 (by decide) (by decide),
     (getAllMappings_copy_semantics dbPtrS3 heapS3 "aws_s3_bucket" 0 s3Mapping
        s3MappingMutated).2.2 (by decide) (by decide)⟩⟩

/-- C10: every statement of a policy produced by `GeneratePolicy` or by
`GeneratePolicyWithResources` has effect `Allow` — for every knowledge
base, parse result, options, ARN-override map and map-iteration order,
no generated statement has effect `Deny`. -/
theorem generated_statements_always_allow
    (kb : KnowledgeBase) (pr : Option ParseResult) (opts : PolicyGenerationOptions)
    (arns : List (String × String)) (typeIter : List String) (p : Policy) :
    (GeneratePolicy kb pr opts = some p →
      ∀ s ∈ p.statement, s.effect = EffectAllow) ∧
    (GeneratePolicyWithResources kb pr arns typeIter = some p →
      ∀ s ∈ p.statement, s.effect = EffectAllow) := by
  constructor
  · intro hp s hs
    cases pr with
    | none => exact absurd hp (by simp [GeneratePolicy])
    | some pr =>
      have hpeq : p = { NewPolicy with
          statement := GeneratePolicyStmts opts (collectAllActions kb pr.resources) } :=
        (Option.some.inj hp).symm
      subst hpeq
      simp only at hs
      unfold GeneratePolicyStmts at hs
      by_cases hg : opts.groupBy = "service"
      · rw [if_pos hg] at hs
        exact effect_generateStatementsGroupedByService hs
      · rw [if_neg hg] at hs
        exact effect_generateStatementsFlat hs
  · intro hp s hs
    cases pr with
    | none => exact absurd hp (by simp [GeneratePolicyWithResources])
    | some pr =>
      have hpeq : p = typeIter.foldl
          (withResourcesStep (statementsByResource kb pr.resources) arns) NewPolicy :=
        (Option.some.inj hp).symm
      subst hpeq
      have hstep : ∀ (q : Policy) (t : String) (s2 : Statement),
          s2 ∈ (withResourcesStep (statementsByResource kb pr.resources) arns q t).statement →
          s2 ∈ q.statement ∨ s2.effect = EffectAllow := by
        intro q t s2 hs2
        unfold withResourcesStep at hs2
        cases hl : List.lookup t (statementsByResource kb pr.resources) with
        | none =>
          rw [hl] at hs2
          exact Or.inl hs2
        | some actions =>
          rw [hl] at hs2
          exact effect_addActionStatement hs2
      rcases effect_foldl _ hstep typeIter NewPolicy s hs with h | h
      · exact absurd h (List.not_mem_nil s)
      · exact h

theorem generated_statements_always_allow_witness :
    (GeneratePolicy kbS3 (some prS3) defaultOpts = some pS3Flat) ∧
    (∀ s ∈ pS3Flat.statement, s.effect = EffectAllow) :=
  ⟨by decide,
    (generated_statements_always_allow kbS3 (some prS3) defaultOpts [] [] pS3Flat).1
      (by decide)⟩

end TfIamgen
